import Mathlib

/-!
Verification development for the `card-io-fw` storage engine.

This file gives a shallow embedding of the storage crate
(`src/storage/src/lib.rs` and `src/storage/src/ll/objects.rs`) and proves or
refutes the frozen claims about it.

Modelling conventions:
* Rust `Result<T, ()>` becomes `Except` with the `RErr.err` error; a Rust
  panic (slice out of bounds, arithmetic overflow, `todo!()`) is modelled as
  the distinct error `RErr.panicked`.
* The flash medium is a list of blocks, each a list of bytes (`Nat` values
  below 256).  Stateful code is state passing in the `M` monad, which also
  accumulates the trace of medium writes so temporal claims can be stated.
* `medium.rs` and `ll/blocks.rs` are not part of the provided sources; the
  definitions taken from them are explicitly marked `Modelled from the spec`.
-/

/-- Outcome of a fallible Rust computation: `err` is `Err(())`, `panicked`
models a Rust panic (out-of-bounds slice indexing or an unimplemented
`todo!()` body). -/
inductive RErr
  | err
  | panicked
  deriving DecidableEq, Repr

/-- One write issued to the medium: destination block, byte offset inside the
block, and the bytes written. -/
structure Ev where
  block : Nat
  offset : Nat
  bytes : List Nat
  deriving DecidableEq, Repr

/-- State of the flash medium: `blocks` is the byte content of each block. -/
structure Flash where
  blocks : List (List Nat)
  deriving DecidableEq, Repr

/-- State-and-trace monad for medium computations: a computation consumes the
flash state and yields a result, the new state, and the list of writes it
issued (also on error, so that failed operations expose their partial
writes). -/
def M (α : Type) : Type := Flash → Except RErr α × Flash × List Ev

instance : Monad M where
  pure a := fun f => (.ok a, f, [])
  bind x g := fun f =>
    match x f with
    | (.ok a, f1, t1) =>
      match g a f1 with
      | (r, f2, t2) => (r, f2, t1 ++ t2)
    | (.error e, f1, t1) => (.error e, f1, t1)

/-- Fail with `Err(())`. -/
def throwE {α : Type} : M α := fun f => (.error .err, f, [])

/-- Fail with a Rust panic. -/
def panicM {α : Type} : M α := fun f => (.error .panicked, f, [])

/-- Lift a pure `Result` (`Except Unit`) into `M`. -/
def liftE {α : Type} : Except Unit α → M α
  | .ok a => pure a
  | .error _ => throwE

/-- Modelled from the spec (§4.1, §6; `medium.rs` is not in the sources):
an async `read(block, offset, buf)` on a RAM-backed medium.  Out-of-bounds
access is surfaced as an error, never retried. -/
def mediumRead (b o n : Nat) : M (List Nat) := fun f =>
  match f.blocks[b]? with
  | none => (.error .err, f, [])
  | some blk =>
    if o + n ≤ blk.length then (.ok ((blk.drop o).take n), f, [])
    else (.error .err, f, [])

/-- Overlay `bytes` onto `blk` starting at offset `o` (the RAM-backed
medium's byte update; positions outside `blk` are dropped). -/
def writeBytes : List Nat → Nat → List Nat → List Nat
  | [], _, _ => []
  | _ :: rest, 0, b :: bs => b :: writeBytes rest 0 bs
  | x :: rest, 0, [] => x :: rest
  | x :: rest, o + 1, bs => x :: writeBytes rest o bs

/-- Modelled from the spec (§4.1, §6; `medium.rs` is not in the sources):
an async `write(block, offset, buf)` on a RAM-backed medium.  The write is
recorded in the trace; out-of-bounds access is an error. -/
def mediumWrite (b o : Nat) (bytes : List Nat) : M Unit := fun f =>
  match f.blocks[b]? with
  | none => (.error .err, f, [])
  | some blk =>
    if o + bytes.length ≤ blk.length then
      (.ok (), ⟨f.blocks.set b (writeBytes blk o bytes)⟩, [⟨b, o, bytes⟩])
    else (.error .err, f, [])

/-- Write granularity of the medium (spec §4.1): `Bit` media can clear
arbitrary bits, `Word n` media write fixed `n`-byte words. -/
inductive WriteGranularity
  | Bit
  | Word : Nat → WriteGranularity
  deriving DecidableEq, Repr

/-- Modelled from the spec (§4.3; `medium.rs` is not in the sources):
`WriteGranularity::width()`, the byte width of one write unit. -/
def WriteGranularity.width : WriteGranularity → Nat
  | .Bit => 1
  | .Word n => n

/-- Static description of a medium: block count, block size and write
granularity (the associated constants of the `StorageMedium` trait). -/
structure MediumConfig where
  blockCount : Nat
  blockSize : Nat
  granularity : WriteGranularity
  deriving DecidableEq, Repr

/-- Fuel-bounded helper for `byteLen` (structural recursion so that the
kernel can evaluate it). -/
def byteLenAux : Nat → Nat → Nat
  | 0, _ => 1
  | fuel + 1, n => if n < 256 then 1 else 1 + byteLenAux fuel (n / 256)

/-- Number of bytes needed to represent values up to `n` (little endian).
Used by the medium-derived sizing functions. -/
def byteLen (n : Nat) : Nat := byteLenAux n n

/-- Modelled from the spec (§4.3, §6; `medium.rs` is not in the sources):
`object_status_bytes()`: one byte under `Bit` granularity; under `Word`
granularity the state patterns of `objects.rs` occupy 12 bytes. -/
def MediumConfig.objectStatusBytes (c : MediumConfig) : Nat :=
  match c.granularity with
  | .Bit => 1
  | .Word _ => 12

/-- Modelled from the spec (§4.3, §6; `medium.rs` is not in the sources):
`object_size_bytes()`, as few bytes as needed for a payload size of at most
one block. -/
def MediumConfig.objectSizeBytes (c : MediumConfig) : Nat :=
  byteLen c.blockSize

/-- Modelled from the spec (§6; `medium.rs` is not in the sources): `align`
rounds an offset up to the next write-unit boundary (identity under `Bit`
granularity). -/
def MediumConfig.align (c : MediumConfig) (n : Nat) : Nat :=
  match c.granularity with
  | .Bit => n
  | .Word w => ((n + w - 1) / w) * w

/-- Modelled from the spec (§4.3, §6; `medium.rs` is not in the sources):
`object_header_bytes()`, the bytes occupied by the `[state][payload size]`
object header. -/
def MediumConfig.objectHeaderBytes (c : MediumConfig) : Nat :=
  c.align (c.objectStatusBytes + c.objectSizeBytes)

/-- Modelled from the spec (§3, §6; `medium.rs` is not in the sources):
`block_count_bytes()`, as few bytes as needed for a block index. -/
def MediumConfig.blockCountBytes (c : MediumConfig) : Nat :=
  byteLen c.blockCount

/-- Modelled from the spec (§3, §6; `medium.rs` is not in the sources):
`object_location_bytes()`, the serialized size of an object location. -/
def MediumConfig.objectLocationBytes (c : MediumConfig) : Nat :=
  c.blockCountBytes + byteLen c.blockSize

/-- Modelled from the spec (§4.4; `ll/blocks.rs` is not in the sources):
the constant `blocks::HEADER_BYTES`, the size of the block header that
precedes the object area of every block. -/
def blocksHeaderBytes : Nat := 4

/-- Little-endian encoding of `n` into exactly `k` bytes (Rust
`to_le_bytes` followed by truncation to `k` bytes). -/
def leBytes (n : Nat) : Nat → List Nat
  | 0 => []
  | k + 1 => (n % 256) :: leBytes (n / 256) k

/-- Little-endian decoding of a byte list (Rust `from_le_bytes` after
zero-extension). -/
def leToNat : List Nat → Nat
  | [] => 0
  | b :: bs => b + 256 * leToNat bs

/-- The four object states of `ll/objects.rs`. -/
inductive ObjectState
  | Free
  | Allocated
  | Finalized
  | Deleted
  deriving DecidableEq, Repr

/-- Embedding of `ObjectState::FREE_WORDS` from `ll/objects.rs`. -/
def ObjectState.FREE_WORDS : List Nat := List.replicate 12 0xFF

/-- Embedding of `ObjectState::ALLOCATED_WORDS` from `ll/objects.rs`. -/
def ObjectState.ALLOCATED_WORDS : List Nat :=
  [0x00, 0x00, 0x00, 0x00, 0xFF, 0xFF, 0xFF, 0xFF, 0xFF, 0xFF, 0xFF, 0xFF]

/-- Embedding of `ObjectState::FINALIZED_WORDS` from `ll/objects.rs`. -/
def ObjectState.FINALIZED_WORDS : List Nat :=
  [0x00, 0x00, 0x00, 0x00, 0x00, 0x00, 0x00, 0x00, 0xFF, 0xFF, 0xFF, 0xFF]

/-- Embedding of `ObjectState::DELETED_WORDS` from `ll/objects.rs`. -/
def ObjectState.DELETED_WORDS : List Nat := List.replicate 12 0x00

/-- Embedding of `ObjectState::is_free`. -/
def ObjectState.is_free : ObjectState → Bool
  | .Free => true
  | _ => false

/-- Embedding of `ObjectState::into_bits` from `ll/objects.rs`. -/
def ObjectState.into_bits : ObjectState → Nat
  | .Free => 0xFF
  | .Allocated => 0xFE
  | .Finalized => 0xFC
  | .Deleted => 0x00

/-- Embedding of `ObjectState::from_bits` from `ll/objects.rs`. -/
def ObjectState.from_bits (bits : Nat) : Except Unit ObjectState :=
  if bits = 0xFF then .ok .Free
  else if bits = 0xFE then .ok .Allocated
  else if bits = 0xFC then .ok .Finalized
  else if bits = 0x00 then .ok .Deleted
  else .error ()

/-- Embedding of `ObjectState::into_words` from `ll/objects.rs`. -/
def ObjectState.into_words : ObjectState → List Nat
  | .Free => ObjectState.FREE_WORDS
  | .Allocated => ObjectState.ALLOCATED_WORDS
  | .Finalized => ObjectState.FINALIZED_WORDS
  | .Deleted => ObjectState.DELETED_WORDS

/-- Embedding of `ObjectState::from_words` from `ll/objects.rs` (a Rust slice pattern
match checks length and content of the slice). -/
def ObjectState.from_words (words : List Nat) : Except Unit ObjectState :=
  if words = ObjectState.FREE_WORDS then .ok .Free
  else if words = ObjectState.ALLOCATED_WORDS then .ok .Allocated
  else if words = ObjectState.FINALIZED_WORDS then .ok .Finalized
  else if words = ObjectState.DELETED_WORDS then .ok .Deleted
  else .error ()

/-- The on-medium pattern a state write produces for the given granularity
(the two branches of `ObjectState::write`). -/
def statePattern (c : MediumConfig) (s : ObjectState) : List Nat :=
  match c.granularity with
  | .Bit => [s.into_bits]
  | .Word _ => s.into_words

/-- An object location `(block, offset)` from `ll/objects.rs`. -/
structure ObjectLocation where
  block : Nat
  offset : Nat
  deriving DecidableEq, Repr

/-- Embedding of `ObjectState::write` from `ll/objects.rs`: write the state pattern at
the aligned offset of the location. -/
def ObjectState.write (c : MediumConfig) (s : ObjectState)
    (location : ObjectLocation) : M Unit :=
  mediumWrite location.block (c.align location.offset) (statePattern c s)

/-- Embedding of `ObjectLocation::into_bytes` from `ll/objects.rs`: little-endian block
index followed by little-endian offset, in the compact byte count derived
from the medium. -/
def ObjectLocation.into_bytes (c : MediumConfig) (l : ObjectLocation) : List Nat :=
  leBytes l.block c.blockCountBytes ++
    leBytes l.offset (c.objectLocationBytes - c.blockCountBytes)

/-- Embedding of `ObjectLocation::from_bytes` from `ll/objects.rs`. -/
def ObjectLocation.from_bytes (c : MediumConfig) (bytes : List Nat) :
    Except Unit ObjectLocation :=
  if bytes.length = c.objectLocationBytes then
    .ok ⟨leToNat (bytes.take c.blockCountBytes), leToNat (bytes.drop c.blockCountBytes)⟩
  else .error ()

/-- An object header `[state][payload size]` from `ll/objects.rs`. -/
structure ObjectHeader where
  state : ObjectState
  object_size : Nat
  deriving DecidableEq, Repr

/-- Embedding of `ObjectHeader::read` from `ll/objects.rs`: read `status + size` bytes at
the location, decode the state for the medium's granularity, decode the size
little-endian. -/
def ObjectHeader.read (c : MediumConfig) (location : ObjectLocation) :
    M ObjectHeader := do
  let headerBytes ← mediumRead location.block location.offset
    (c.objectSizeBytes + c.objectStatusBytes)
  let stateSlice := headerBytes.take c.objectStatusBytes
  let sizeSlice := headerBytes.drop c.objectStatusBytes
  let state ← liftE (match c.granularity with
    | .Bit => ObjectState.from_bits (stateSlice.headD 0)
    | .Word _ => ObjectState.from_words stateSlice)
  pure ⟨state, leToNat sizeSlice⟩

/-- Embedding of `ObjectOps::update_state` from `ll/objects.rs`: refuses to write the
`Free` state; otherwise writes the state pattern at the location. -/
def ObjectOps.update_state (c : MediumConfig) (location : ObjectLocation)
    (state : ObjectState) : M Unit :=
  if state.is_free then throwE
  else state.write c location

/-- Embedding of `ObjectOps::set_payload_size` from `ll/objects.rs`: writes the
little-endian payload size at block offset `align(object_status_bytes())`.
Note that the source computes this offset without adding `location.offset`. -/
def ObjectOps.set_payload_size (c : MediumConfig) (location : ObjectLocation)
    (cursor : Nat) : M Unit :=
  mediumWrite location.block (c.align c.objectStatusBytes)
    (leBytes cursor c.objectSizeBytes)

/-- The `ObjectWriter` of `ll/objects.rs` (fields `location`, `object`,
`cursor`, `buffer`). -/
structure ObjectWriter where
  location : ObjectLocation
  object : ObjectHeader
  cursor : Nat
  buffer : List Nat
  deriving DecidableEq, Repr

/-- Embedding of `ObjectWriter::new` from `ll/objects.rs`: reads back the header; a
header already in `Allocated` state signals a prior crash and is an error. -/
def ObjectWriter.new (c : MediumConfig) (location : ObjectLocation) :
    M ObjectWriter := do
  let object ← ObjectHeader.read c location
  if object.state = ObjectState.Allocated then throwE
  else pure ⟨location, object, 0, []⟩

/-- Embedding of `ObjectWriter::fill_buffer` from `ll/objects.rs`: under `Bit`
granularity data passes through; under `Word` granularity up to one write
unit is buffered and the unconsumed suffix is returned. -/
def ObjectWriter.fill_buffer (c : MediumConfig) (w : ObjectWriter)
    (data : List Nat) : List Nat × ObjectWriter :=
  match c.granularity with
  | .Bit => (data, w)
  | .Word len =>
    let copied := min data.length (len - w.buffer.length)
    (data.drop copied, { w with buffer := w.buffer ++ data.take copied })

/-- Embedding of `ObjectWriter::can_flush` from `ll/objects.rs`. -/
def ObjectWriter.can_flush (c : MediumConfig) (w : ObjectWriter) : Bool :=
  match c.granularity with
  | .Bit => false
  | .Word len => w.buffer.length = len

/-- Embedding of `ObjectWriter::data_write_offset` from `ll/objects.rs`. -/
def ObjectWriter.data_write_offset (c : MediumConfig) (w : ObjectWriter) : Nat :=
  w.location.offset + c.objectHeaderBytes + w.cursor

/-- Embedding of `ObjectWriter::space` from `ll/objects.rs`. -/
def ObjectWriter.space (c : MediumConfig) (w : ObjectWriter) : Nat :=
  c.blockSize - w.data_write_offset c

/-- Embedding of `ObjectWriter::flush` from `ll/objects.rs`: a no-op under `Bit`
granularity; otherwise writes the buffered bytes at the data write offset. -/
def ObjectWriter.flush (c : MediumConfig) (w : ObjectWriter) : M ObjectWriter :=
  if c.granularity = WriteGranularity.Bit then pure w
  else if w.buffer.isEmpty then pure w
  else do
    mediumWrite w.location.block (w.data_write_offset c) w.buffer
    pure { w with buffer := [] }

/-- Embedding of `ObjectWriter::set_state` from `ll/objects.rs`: records the new state in
the in-memory header and writes it through `ObjectOps::update_state`. -/
def ObjectWriter.set_state (c : MediumConfig) (w : ObjectWriter)
    (state : ObjectState) : M ObjectWriter := do
  ObjectOps.update_state c w.location state
  pure { w with object := { w.object with state := state } }

/-- Embedding of `ObjectWriter::allocate` from `ll/objects.rs`: transition to
`Allocated`. -/
def ObjectWriter.allocate (c : MediumConfig) (w : ObjectWriter) : M ObjectWriter :=
  w.set_state c ObjectState.Allocated

/-- The buffered-prefix step of `ObjectWriter::write` (`ll/objects.rs`):
when the buffer is non-empty, top it up from `data` and flush it if it
reached one write unit; returns the unconsumed data and the writer. -/
def ObjectWriter.writeStep1 (c : MediumConfig) (w : ObjectWriter)
    (data : List Nat) : M (List Nat × ObjectWriter) :=
  if w.buffer.isEmpty then pure (data, w)
  else
    let p := w.fill_buffer c data
    if p.2.can_flush c then do
      let w'' ← p.2.flush c
      pure (p.1, w'')
    else pure p

/-- The aligned-write tail of `ObjectWriter::write` (`ll/objects.rs`): the
source computes `aligned_bytes` from the original length `len` but slices
the possibly shrunk current data, which panics when the buffer consumed
bytes; the trailing remainder goes back into the buffer and the cursor
advances by the original length. -/
def ObjectWriter.writeTail (c : MediumConfig) (len : Nat) (w1 : ObjectWriter)
    (data1 : List Nat) : M ObjectWriter :=
  let remaining := data1.length % c.granularity.width
  let aligned_bytes := len - remaining
  if aligned_bytes ≤ data1.length then do
    mediumWrite w1.location.block (w1.data_write_offset c) (data1.take aligned_bytes)
    let p := w1.fill_buffer c (data1.drop aligned_bytes)
    pure { p.2 with cursor := p.2.cursor + len }
  else panicM

/-- Embedding of `ObjectWriter::write` from `ll/objects.rs`, translated step for step:
state check, space check, buffered prefix (`writeStep1`), then the aligned
write and trailing remainder (`writeTail`). -/
def ObjectWriter.write (c : MediumConfig) (w : ObjectWriter) (data : List Nat) :
    M ObjectWriter := do
  if w.object.state ≠ ObjectState.Allocated then throwE
  else do
    let len := data.length
    if w.space c < len then throwE
    else do
      let p ← w.writeStep1 c data
      ObjectWriter.writeTail c len p.2 p.1

/-- Embedding of `ObjectWriter::write_size` from `ll/objects.rs`. -/
def ObjectWriter.write_size (c : MediumConfig) (w : ObjectWriter) : M Unit :=
  ObjectOps.set_payload_size c w.location w.cursor

/-- Embedding of `ObjectWriter::finalize` from `ll/objects.rs`: only an `Allocated`
writer can finalize; the payload size commit and the state transition are
two separate writes with the buffer flush between them. -/
def ObjectWriter.finalize (c : MediumConfig) (w : ObjectWriter) : M Unit := do
  if w.object.state ≠ ObjectState.Allocated then throwE
  else do
    w.write_size c
    let w' ← w.flush c
    let _ ← w'.set_state c ObjectState.Finalized
    pure ()

/-- The `ObjectReader` of `ll/objects.rs` (fields `location`, `object`,
`cursor`). -/
structure ObjectReader where
  location : ObjectLocation
  object : ObjectHeader
  cursor : Nat
  deriving DecidableEq, Repr

/-- Embedding of `ObjectReader::new` from `ll/objects.rs`: reads back the header and
only accepts a `Finalized` object. -/
def ObjectReader.new (c : MediumConfig) (location : ObjectLocation) :
    M ObjectReader := do
  let object ← ObjectHeader.read c location
  if object.state ≠ ObjectState.Finalized then throwE
  else pure ⟨location, object, 0⟩

/-- Embedding of `ObjectReader::remaining` from `ll/objects.rs`, verbatim:
`BLOCK_SIZE - (object_size - cursor)` (truncating subtraction models the
`usize` arithmetic). -/
def ObjectReader.remaining (c : MediumConfig) (r : ObjectReader) : Nat :=
  c.blockSize - (r.object.object_size - r.cursor)

/-- Embedding of `ObjectReader::rewind` from `ll/objects.rs`. -/
def ObjectReader.rewind (r : ObjectReader) : ObjectReader :=
  { r with cursor := 0 }

/-- Embedding of `ObjectReader::read` from `ll/objects.rs`, verbatim: reads
`min(buf.len(), remaining())` bytes at `location.offset + cursor` and
advances the cursor; returns the bytes placed into the buffer. -/
def ObjectReader.read (c : MediumConfig) (r : ObjectReader) (bufLen : Nat) :
    M (List Nat × ObjectReader) := do
  let read_offset := r.location.offset + r.cursor
  let read_size := min bufLen (r.remaining c)
  let bytes ← mediumRead r.location.block read_offset read_size
  pure (bytes, { r with cursor := r.cursor + read_size })

/-- Modelled from the spec (§4.5; `ObjectReader::len` is called by
`Storage::lookup` but absent from `ll/objects.rs`): the stored payload
length of the object. -/
def ObjectReader.len (r : ObjectReader) : Nat :=
  r.object.object_size

/-- The `ObjectInfo` of `ll/objects.rs`. -/
structure ObjectInfo where
  location : ObjectLocation
  header : ObjectHeader
  deriving DecidableEq, Repr

/-- Embedding of `ObjectInfo::total_size` from `ll/objects.rs`. -/
def ObjectInfo.total_size (c : MediumConfig) (i : ObjectInfo) : Nat :=
  i.header.object_size + c.objectHeaderBytes

/-- The `ObjectIterator` of `ll/objects.rs`. -/
structure ObjectIterator where
  location : ObjectLocation
  deriving DecidableEq, Repr

/-- Embedding of `ObjectIterator::new` from `ll/objects.rs`: start at the first offset
after the block header. -/
def ObjectIterator.new (block : Nat) : ObjectIterator :=
  ⟨⟨block, blocksHeaderBytes⟩⟩

/-- Embedding of `ObjectIterator::next` from `ll/objects.rs`: none when fewer than
`blocks::HEADER_BYTES` bytes remain before block end or when the header
reads `Free`; otherwise yield the object and advance by its total size. -/
def ObjectIterator.next (c : MediumConfig) (it : ObjectIterator) :
    M (Option ObjectInfo × ObjectIterator) := do
  if it.location.offset + blocksHeaderBytes ≥ c.blockSize then
    pure (none, it)
  else do
    let object ← ObjectHeader.read c it.location
    if object.state.is_free then pure (none, it)
    else do
      let info : ObjectInfo := ⟨it.location, object⟩
      pure (some info, ⟨⟨it.location.block, it.location.offset + info.total_size c⟩⟩)

/-- Embedding of `ObjectIterator::current_offset` from `ll/objects.rs`. -/
def ObjectIterator.current_offset (it : ObjectIterator) : Nat :=
  it.location.offset

/-- Modelled from the spec (§2, §3; `ll/blocks.rs` is not in the sources):
the classification of a block kept in the mounted `Storage`'s `BlockInfo`
cache. -/
inductive BlockKind
  | metadata
  | data
  | unknown
  deriving DecidableEq, Repr

/-- Embedding of `BlockInfo::is_metadata`, modelled from the spec: the block indices a
`lookup` visits, in ascending order (the source iterates the `blocks` array
with `enumerate().filter_map(is_metadata)`). -/
def metadataIndices (bs : List BlockKind) : List Nat :=
  (List.range bs.length).filter fun i => bs[i]? = some BlockKind.metadata

/-- Data-block indices, modelled from the spec (§4.5: data objects prefer
`Data` blocks). -/
def dataIndices (bs : List BlockKind) : List Nat :=
  (List.range bs.length).filter fun i => bs[i]? = some BlockKind.data

/-- The `MetadataObjectHeader` of the storage crate: its own location and
header, the stored path hash, the location of the filename object and the
locations of the data objects of the chain.  The payload layout is modelled
from the spec (§3: path hash, then the filename pointer, then the chain
pointers; the parsing code is absent from the sources). -/
structure MetadataObjectHeader where
  location : ObjectLocation
  object : ObjectHeader
  path_hash : Nat
  filename_location : ObjectLocation
  data_locations : List ObjectLocation
  deriving DecidableEq, Repr

/-- Parse `n` serialized object locations from a byte list. -/
def parseLocations (c : MediumConfig) : Nat → List Nat → Except Unit (List ObjectLocation)
  | 0, _ => .ok []
  | n + 1, bytes => do
    let l ← ObjectLocation.from_bytes c (bytes.take c.objectLocationBytes)
    let rest ← parseLocations c n (bytes.drop c.objectLocationBytes)
    .ok (l :: rest)

/-- Modelled from the spec (§3; the metadata-payload parser called as
`read_metadata` by `lib.rs` is absent from the sources): read a metadata
object's payload as `[path hash (4 bytes)][filename location][data
locations]`, the number of data locations being determined by the stored
payload size. -/
def readMetadata (c : MediumConfig) (obj : ObjectInfo) : M MetadataObjectHeader := do
  let payloadOffset := obj.location.offset + c.objectHeaderBytes
  let lb := c.objectLocationBytes
  let fixed ← mediumRead obj.location.block payloadOffset (4 + lb)
  let hash := leToNat (fixed.take 4)
  let fLoc ← liftE (ObjectLocation.from_bytes c (fixed.drop 4))
  let n := (obj.header.object_size - 4 - lb) / lb
  let rest ← mediumRead obj.location.block (payloadOffset + 4 + lb) (n * lb)
  let dataLocs ← liftE (parseLocations c n rest)
  pure ⟨obj.location, obj.header, hash, fLoc, dataLocs⟩

/-- Embedding of `ObjectLocation::read_metadata` as used by `delete_file_at` (absent from
the sources, modelled from the spec): read the object header at the
location, then parse the metadata payload. -/
def readMetadataAt (c : MediumConfig) (location : ObjectLocation) :
    M MetadataObjectHeader := do
  let header ← ObjectHeader.read c location
  readMetadata c ⟨location, header⟩

/-- The byte-for-byte filename comparison loop of `Storage::lookup`
(`lib.rs`): repeatedly read into a 16-byte buffer and compare with the
corresponding slice of the path; returns `false` on a mismatch (the
source's `continue 'objs`).  Slicing the path out of bounds is the panic of
`&path.as_bytes()[read..read + bytes_read]`; the fuel models the source's
unbounded `while` loop, which diverges when a read returns zero bytes. -/
def comparePath (c : MediumConfig) (path : List Nat) :
    Nat → ObjectReader → Nat → M Bool
  | 0, _, _ => throwE
  | fuel + 1, r, readSoFar =>
    if readSoFar < path.length then do
      let (bytes, r') ← r.read c 16
      if readSoFar + bytes.length > path.length then panicM
      else if (path.drop readSoFar).take bytes.length ≠ bytes then pure false
      else comparePath c path fuel r' (readSoFar + bytes.length)
    else pure true

/-- The per-block body of `Storage::lookup` (`lib.rs`): walk the block's
objects, skip non-`Finalized` objects, compare the stored path hash, then
the filename length, then the filename bytes; the first full match returns
the metadata object's location.  The fuel bounds the object walk (each step
advances the offset, so `blockSize` steps suffice for real media). -/
def scanBlock (c : MediumConfig) (path : List Nat) :
    Nat → ObjectIterator → M (Option ObjectLocation)
  | 0, _ => throwE
  | fuel + 1, it => do
    let (obj?, it') ← it.next c
    match obj? with
    | none => pure none
    | some object =>
      if object.header.state ≠ ObjectState.Finalized then
        scanBlock c path fuel it'
      else do
        let metadata ← readMetadata c object
        if metadata.path_hash = path.length then do
          let reader ← ObjectReader.new c metadata.filename_location
          if reader.len ≠ path.length then scanBlock c path fuel it'
          else do
            let matched ← comparePath c path (path.length + 1) reader 0
            if matched then pure (some metadata.location)
            else scanBlock c path fuel it'
        else scanBlock c path fuel it'

/-- The outer block loop of `Storage::lookup` over the metadata block
indices. -/
def lookupBlocks (c : MediumConfig) (path : List Nat) :
    List Nat → M ObjectLocation
  | [] => throwE
  | i :: rest => do
    let r ← scanBlock c path (c.blockSize + 1) (ObjectIterator.new i)
    match r with
    | some location => pure location
    | none => lookupBlocks c path rest

/-- Embedding of `Storage::lookup` from `lib.rs`: the path hash is the path length (the
source's `TODO: Hash the path` stub); every metadata block is scanned in
order; no match is the not-found error. -/
def Storage.lookup (c : MediumConfig) (blocks : List BlockKind)
    (path : List Nat) : M ObjectLocation :=
  lookupBlocks c path (metadataIndices blocks)

/-- The facade `Reader` of `lib.rs`: the metadata object location and a
cursor, constructed by `Storage::read`. -/
structure FacadeReader where
  object : ObjectLocation
  cursor : Nat
  deriving DecidableEq, Repr

/-- Embedding of `Storage::read` from `lib.rs`: resolve the path and return a `Reader`
over the metadata location. -/
def Storage.read (c : MediumConfig) (blocks : List BlockKind)
    (path : List Nat) : M FacadeReader := do
  let object ← Storage.lookup c blocks path
  pure ⟨object, 0⟩

/-- The chain-deletion loop of `Storage::delete_file_at`: mark every data
object `Deleted` in chain order (the source drains
`metadata.next_object_location`). -/
def deleteDataObjects (c : MediumConfig) : List ObjectLocation → M Unit
  | [] => pure ()
  | l :: rest => do
    ObjectOps.update_state c l ObjectState.Deleted
    deleteDataObjects c rest

/-- Embedding of `Storage::delete_file_at` from `lib.rs`: re-read the metadata, mark the
filename object `Deleted`, then every data object of the chain, then the
metadata object itself last. -/
def Storage.delete_file_at (c : MediumConfig) (meta_location : ObjectLocation) :
    M Unit := do
  let metadata ← readMetadataAt c meta_location
  ObjectOps.update_state c metadata.filename_location ObjectState.Deleted
  deleteDataObjects c metadata.data_locations
  ObjectOps.update_state c meta_location ObjectState.Deleted

/-- Embedding of `Storage::delete` from `lib.rs`: resolve the path, then delete the
chain. -/
def Storage.delete (c : MediumConfig) (blocks : List BlockKind)
    (path : List Nat) : M Unit := do
  let location ← Storage.lookup c blocks path
  Storage.delete_file_at c location

/-- Capture the `Result` of a computation the way
`let overwritten_location = self.lookup(path).await` does in `Storage::store`:
an `Err(())` becomes a `none` value, a panic still propagates. -/
def attemptM {α : Type} (x : M α) : M (Option α) := fun f =>
  match x f with
  | (.ok a, f', t) => (.ok (some a), f', t)
  | (.error .err, f', t) => (.ok none, f', t)
  | (.error .panicked, f', t) => (.error .panicked, f', t)

/-- Find the first free offset of a block by walking its objects, exactly as
mount scanning would (spec §4.4): iterate until the walk yields none and
return the iterator's current offset. -/
def findFreeOffsetLoop (c : MediumConfig) : Nat → ObjectIterator → M Nat
  | 0, _ => throwE
  | fuel + 1, it => do
    let (obj?, it') ← it.next c
    match obj? with
    | none => pure it'.current_offset
    | some _ => findFreeOffsetLoop c fuel it'

/-- Find the first free offset after the used region of a block. -/
def findFreeOffset (c : MediumConfig) (block : Nat) : M Nat :=
  findFreeOffsetLoop c (c.blockSize + 1) (ObjectIterator.new block)

/-- Modelled from the spec (§4.5; `Storage::allocate_object` is a `todo!()`
stub in `lib.rs`): choose the first block of the preferred kind whose free
region can hold a header plus `payloadLen` payload bytes; fail cleanly when
no block has space. -/
def allocateIn (c : MediumConfig) (payloadLen : Nat) :
    List Nat → M ObjectLocation
  | [] => throwE
  | i :: rest => do
    let offset ← findFreeOffset c i
    if offset + c.objectHeaderBytes + payloadLen ≤ c.blockSize then
      pure ⟨i, offset⟩
    else allocateIn c payloadLen rest

/-- Modelled from the spec (§4.5; `Storage::allocate_object` is a `todo!()`
stub in `lib.rs`): allocate space for the new metadata object in a metadata
block.  The metadata payload is the 4-byte path hash plus the filename and
data-object locations. -/
def Storage.allocate_object (c : MediumConfig) (blocks : List BlockKind) :
    M ObjectLocation :=
  allocateIn c (4 + 2 * c.objectLocationBytes) (metadataIndices blocks)

/-- Write one complete object at a fresh location through the source's
`ObjectWriter` protocol (spec §4.3): construct, allocate, write the payload,
finalize. -/
def writeOne (c : MediumConfig) (location : ObjectLocation)
    (payload : List Nat) : M Unit := do
  let w ← ObjectWriter.new c location
  let w ← w.allocate c
  let w ← w.write c payload
  w.finalize c

/-- Modelled from the spec (§3, §4.5; `Storage::write_object` is a `todo!()`
stub in `lib.rs`): write the brand-new object chain for a store — the
filename object (payload: the path bytes) and the data object (payload: the
content) into data blocks, then the metadata object (payload: path hash,
filename location, data location) at the allocated metadata location, each
through the `ObjectWriter` protocol. -/
def Storage.write_object (c : MediumConfig) (blocks : List BlockKind)
    (metaLocation : ObjectLocation) (path data : List Nat) : M Unit := do
  let fLoc ← allocateIn c path.length (dataIndices blocks)
  writeOne c fLoc path
  let dLoc ← allocateIn c data.length (dataIndices blocks)
  writeOne c dLoc data
  writeOne c metaLocation
    (leBytes path.length 4 ++ fLoc.into_bytes c ++ dLoc.into_bytes c)

/-- Embedding of `Storage::store` from `lib.rs`: look up any existing object at the path
(keeping the `Result`), allocate and write the brand-new chain, and only
then delete the previous chain if one existed. -/
def Storage.store (c : MediumConfig) (blocks : List BlockKind)
    (path data : List Nat) : M Unit := do
  let overwritten ← attemptM (Storage.lookup c blocks path)
  let newObject ← Storage.allocate_object c blocks
  Storage.write_object c blocks newObject path data
  match overwritten with
  | some location => Storage.delete_file_at c location
  | none => pure ()

deriving instance DecidableEq for Except

/-- A small concrete `Bit`-granularity medium: 4 blocks of 32 bytes. -/
def cfgB : MediumConfig := ⟨4, 32, WriteGranularity.Bit⟩

/-- Block classification of the mounted test medium: two metadata blocks,
two data blocks (the shape `format(metadata_blocks = 2)` produces). -/
def blocksB : List BlockKind :=
  [BlockKind.metadata, BlockKind.metadata, BlockKind.data, BlockKind.data]

/-- A freshly formatted block: the block-header region followed by an
erased (all `0xFF`) object area. -/
def formattedBlock : List Nat := [0, 0, 0, 0] ++ List.replicate 28 0xFF

/-- A freshly formatted and mounted medium. -/
def flashFmt : Flash := ⟨[formattedBlock, formattedBlock, formattedBlock, formattedBlock]⟩

/-- The path bytes of the path string of length 2 used as a store/read
round-trip input. -/
def pathAB : List Nat := [97, 98]

/-- A medium holding one complete, correctly laid out file chain for the
empty path: a `Finalized` metadata object at block 0 offset 4 (payload:
path hash 0, filename location (2,4), data location (2,6)), a `Finalized`
empty filename object at block 2 offset 4 and a `Finalized` one-byte data
object at block 2 offset 6. -/
def flashOld : Flash := ⟨[
  [0, 0, 0, 0, 0xFC, 8, 0, 0, 0, 0, 2, 4, 2, 6] ++ List.replicate 18 0xFF,
  formattedBlock,
  [0, 0, 0, 0, 0xFC, 0, 0xFC, 1, 77] ++ List.replicate 23 0xFF,
  formattedBlock]⟩

/-- A medium whose block 0 holds an `Allocated` object at offset 4 with
three payload bytes already written and the size field still erased. -/
def flashAlloc : Flash := ⟨[[0, 0, 0, 0, 0xFE, 0xFF, 9, 9, 9] ++ List.replicate 23 0xFF,
  formattedBlock, formattedBlock, formattedBlock]⟩

/-- An `ObjectWriter` over the `Allocated` object of `flashAlloc` after
writing three payload bytes (cursor 3). -/
def writerAlloc : ObjectWriter := ⟨⟨0, 4⟩, ⟨ObjectState.Allocated, 255⟩, 3, []⟩

/-- A medium whose block 0 holds a `Finalized` object at offset 4 with
payload size 1 and payload byte 42 at offset 6. -/
def flashReader : Flash := ⟨[[0, 0, 0, 0, 0xFC, 1, 42] ++ List.replicate 25 0xFF,
  formattedBlock, formattedBlock, formattedBlock]⟩

/-- A one-block medium whose bytes at offsets 28 and 29 form a `Finalized`
object header with payload size 0. -/
def flashIter : Flash := ⟨[[0, 0, 0, 0] ++ List.replicate 24 0xFF ++ [0xFC, 0, 0xFF, 0xFF]]⟩

/-- A computation reads the medium but never writes: it leaves the flash
unchanged and issues no write events, also when it fails. -/
def ReadsOnly {α : Type} (x : M α) : Prop :=
  ∀ f, ∃ r, x f = (r, f, [])

/-- The object walk of block `i` yields no object at all: the state of a
metadata block on which nothing was ever stored. -/
abbrev blockEmpty (c : MediumConfig) (f : Flash) (i : Nat) : Prop :=
  ObjectIterator.next c (ObjectIterator.new i) f = (.ok (none, ObjectIterator.new i), f, [])


/-- The flash state after the new-chain phase of `store(empty path, [9])`
on `flashOld` (filename, data and metadata objects written and finalized;
the old chain still intact). -/
def fMidLit : Flash := ⟨[
  [0, 8, 0, 0, 252, 8, 0, 0, 0, 0, 2, 4, 2, 6, 252, 255, 0, 0, 0, 0, 2, 9, 3, 4] ++
    List.replicate 8 255,
  [0, 0, 0, 0] ++ List.replicate 28 255,
  [0, 0, 0, 0, 252, 0, 252, 1, 77, 252] ++ List.replicate 22 255,
  [0, 1, 0, 0, 252, 255, 9] ++ List.replicate 25 255]⟩

/-- The twelve writes of the new-chain phase of `store(empty path, [9])` on
`flashOld`. -/
def tNewLit : List Ev :=
  [⟨2, 9, [254]⟩, ⟨2, 11, []⟩, ⟨2, 1, [0]⟩, ⟨2, 9, [252]⟩,
   ⟨3, 4, [254]⟩, ⟨3, 6, [9]⟩, ⟨3, 1, [1]⟩, ⟨3, 4, [252]⟩,
   ⟨0, 14, [254]⟩, ⟨0, 16, [0, 0, 0, 0, 2, 9, 3, 4]⟩, ⟨0, 1, [8]⟩, ⟨0, 14, [252]⟩]

/-- The three `Deleted` commits of the old chain issued by the final phase
of `store(empty path, [9])` on `flashOld`. -/
def tDelLit : List Ev := [⟨2, 4, [0]⟩, ⟨2, 6, [0]⟩, ⟨0, 4, [0]⟩]

/-- The final flash state of `store(empty path, [9])` on `flashOld`. -/
def flashOldAfter : Flash := ⟨[
  [0, 8, 0, 0, 0, 8, 0, 0, 0, 0, 2, 4, 2, 6, 252, 255, 0, 0, 0, 0, 2, 9, 3, 4] ++
    List.replicate 8 255,
  [0, 0, 0, 0] ++ List.replicate 28 255,
  [0, 0, 0, 0, 0, 0, 0, 1, 77, 252] ++ List.replicate 22 255,
  [0, 1, 0, 0, 252, 255, 9] ++ List.replicate 25 255]⟩

theorem M.bind_run {α β : Type} (x : M α) (g : α → M β) (f : Flash) :
    (x >>= g) f =
      match x f with
      | (.ok a, f1, t1) =>
        match g a f1 with
        | (r, f2, t2) => (r, f2, t1 ++ t2)
      | (.error e, f1, t1) => (.error e, f1, t1) := rfl

theorem M.pure_run {α : Type} (a : α) (f : Flash) :
    (pure a : M α) f = (.ok a, f, []) := rfl

theorem readsOnly_pure {α : Type} (a : α) : ReadsOnly (pure a : M α) :=
  fun _ => ⟨.ok a, rfl⟩

theorem readsOnly_throwE {α : Type} : ReadsOnly (throwE : M α) :=
  fun _ => ⟨.error .err, rfl⟩

theorem readsOnly_panicM {α : Type} : ReadsOnly (panicM : M α) :=
  fun _ => ⟨.error .panicked, rfl⟩

theorem readsOnly_liftE {α : Type} (x : Except Unit α) : ReadsOnly (liftE x) := by
  cases x with
  | ok a => exact readsOnly_pure a
  | error e => exact readsOnly_throwE

theorem readsOnly_bind {α β : Type} {x : M α} {g : α → M β}
    (hx : ReadsOnly x) (hg : ∀ a, ReadsOnly (g a)) : ReadsOnly (x >>= g) := by
  intro f
  obtain ⟨r, hr⟩ := hx f
  cases r with
  | error e => exact ⟨.error e, by rw [M.bind_run, hr]⟩
  | ok a =>
    obtain ⟨r2, hr2⟩ := hg a f
    exact ⟨r2, by simp [M.bind_run, hr, hr2]⟩

theorem readsOnly_mediumRead (b o n : Nat) : ReadsOnly (mediumRead b o n) := by
  intro f
  unfold mediumRead
  cases f.blocks[b]? with
  | none => exact ⟨_, rfl⟩
  | some blk =>
    dsimp only
    split
    · exact ⟨_, rfl⟩
    · exact ⟨_, rfl⟩

theorem readsOnly_headerRead (c : MediumConfig) (loc : ObjectLocation) :
    ReadsOnly (ObjectHeader.read c loc) := by
  unfold ObjectHeader.read
  exact readsOnly_bind (readsOnly_mediumRead _ _ _) fun hb =>
    readsOnly_bind (readsOnly_liftE _) fun st => readsOnly_pure _

theorem readsOnly_iterNext (c : MediumConfig) (it : ObjectIterator) :
    ReadsOnly (it.next c) := by
  unfold ObjectIterator.next
  split
  · exact readsOnly_pure _
  · refine readsOnly_bind (readsOnly_headerRead _ _) fun obj => ?_
    split
    · exact readsOnly_pure _
    · exact readsOnly_pure _

theorem readsOnly_readerNew (c : MediumConfig) (loc : ObjectLocation) :
    ReadsOnly (ObjectReader.new c loc) := by
  unfold ObjectReader.new
  refine readsOnly_bind (readsOnly_headerRead _ _) fun obj => ?_
  split
  · exact readsOnly_throwE
  · exact readsOnly_pure _

theorem readsOnly_readerRead (c : MediumConfig) (r : ObjectReader) (n : Nat) :
    ReadsOnly (r.read c n) := by
  unfold ObjectReader.read
  exact readsOnly_bind (readsOnly_mediumRead _ _ _) fun bytes => readsOnly_pure _

theorem readsOnly_readMetadata (c : MediumConfig) (obj : ObjectInfo) :
    ReadsOnly (readMetadata c obj) := by
  unfold readMetadata
  refine readsOnly_bind (readsOnly_mediumRead _ _ _) fun fixed => ?_
  refine readsOnly_bind (readsOnly_liftE _) fun fLoc => ?_
  refine readsOnly_bind (readsOnly_mediumRead _ _ _) fun rest => ?_
  exact readsOnly_bind (readsOnly_liftE _) fun dataLocs => readsOnly_pure _

theorem readsOnly_comparePath (c : MediumConfig) (path : List Nat) :
    ∀ fuel r readSoFar, ReadsOnly (comparePath c path fuel r readSoFar) := by
  intro fuel
  induction fuel with
  | zero => intro r rs; exact readsOnly_throwE
  | succ n ih =>
    intro r rs
    unfold comparePath
    split
    · refine readsOnly_bind (readsOnly_readerRead _ _ _) fun p => ?_
      rcases p with ⟨bytes, r'⟩
      dsimp only
      split
      · exact readsOnly_panicM
      · split
        · exact readsOnly_pure _
        · exact ih r' (rs + bytes.length)
    · exact readsOnly_pure _

theorem readsOnly_scanBlock (c : MediumConfig) (path : List Nat) :
    ∀ fuel it, ReadsOnly (scanBlock c path fuel it) := by
  intro fuel
  induction fuel with
  | zero => intro it; exact readsOnly_throwE
  | succ n ih =>
    intro it
    unfold scanBlock
    refine readsOnly_bind (readsOnly_iterNext _ _) fun p => ?_
    rcases p with ⟨obj?, it'⟩
    dsimp only
    match obj? with
    | none => exact readsOnly_pure _
    | some object =>
      dsimp only
      split
      · exact ih it'
      · refine readsOnly_bind (readsOnly_readMetadata _ _) fun metadata => ?_
        split
        · refine readsOnly_bind (readsOnly_readerNew _ _) fun reader => ?_
          split
          · exact ih it'
          · refine readsOnly_bind (readsOnly_comparePath _ _ _ _ _) fun matched => ?_
            split
            · exact readsOnly_pure _
            · exact ih it'
        · exact ih it'

theorem readsOnly_lookupBlocks (c : MediumConfig) (path : List Nat) :
    ∀ l, ReadsOnly (lookupBlocks c path l) := by
  intro l
  induction l with
  | nil => exact readsOnly_throwE
  | cons i rest ih =>
    unfold lookupBlocks
    refine readsOnly_bind (readsOnly_scanBlock _ _ _ _) fun r => ?_
    match r with
    | some location => exact readsOnly_pure _
    | none => exact ih

theorem readsOnly_lookup (c : MediumConfig) (blocks : List BlockKind)
    (path : List Nat) : ReadsOnly (Storage.lookup c blocks path) :=
  readsOnly_lookupBlocks c path (metadataIndices blocks)

theorem readsOnly_findFreeOffsetLoop (c : MediumConfig) :
    ∀ fuel it, ReadsOnly (findFreeOffsetLoop c fuel it) := by
  intro fuel
  induction fuel with
  | zero => intro it; exact readsOnly_throwE
  | succ n ih =>
    intro it
    unfold findFreeOffsetLoop
    refine readsOnly_bind (readsOnly_iterNext _ _) fun p => ?_
    rcases p with ⟨obj?, it'⟩
    dsimp only
    match obj? with
    | none => exact readsOnly_pure _
    | some _ => exact ih it'

theorem readsOnly_allocateIn (c : MediumConfig) (payloadLen : Nat) :
    ∀ l, ReadsOnly (allocateIn c payloadLen l) := by
  intro l
  induction l with
  | nil => exact readsOnly_throwE
  | cons i rest ih =>
    unfold allocateIn
    refine readsOnly_bind (readsOnly_findFreeOffsetLoop _ _ _) fun offset => ?_
    split
    · exact readsOnly_pure _
    · exact ih

theorem readsOnly_allocateObject (c : MediumConfig) (blocks : List BlockKind) :
    ReadsOnly (Storage.allocate_object c blocks) :=
  readsOnly_allocateIn c _ _

theorem scanBlock_blockEmpty (c : MediumConfig) (path : List Nat) (f : Flash)
    (i : Nat) (h : blockEmpty c f i) :
    scanBlock c path (c.blockSize + 1) (ObjectIterator.new i) f = (.ok none, f, []) := by
  unfold scanBlock
  rw [M.bind_run, h]
  rfl

theorem lookupBlocks_empty (c : MediumConfig) (path : List Nat) (f : Flash) :
    ∀ l, (∀ i ∈ l, blockEmpty c f i) →
      lookupBlocks c path l f = (.error .err, f, []) := by
  intro l
  induction l with
  | nil => intro _; rfl
  | cons i rest ih =>
    intro h
    have hi := h i (by simp)
    have hrest := ih fun j hj => h j (by simp [hj])
    unfold lookupBlocks
    rw [M.bind_run, scanBlock_blockEmpty c path f i hi]
    simpa using hrest

theorem lookup_empty (c : MediumConfig) (blocks : List BlockKind)
    (path : List Nat) (f : Flash)
    (h : ∀ i ∈ metadataIndices blocks, blockEmpty c f i) :
    Storage.lookup c blocks path f = (.error .err, f, []) :=
  lookupBlocks_empty c path f (metadataIndices blocks) h

theorem readerNew_run_ok (c : MediumConfig) (loc : ObjectLocation) (f : Flash)
    (h' : ObjectHeader)
    (hrh : ObjectHeader.read c loc f = (.ok h', f, [])) :
    ObjectReader.new c loc f =
      if h'.state = ObjectState.Finalized then (.ok ⟨loc, h', 0⟩, f, [])
      else (.error .err, f, []) := by
  unfold ObjectReader.new
  rw [M.bind_run, hrh]
  dsimp only
  by_cases hs : h'.state = ObjectState.Finalized
  · rw [if_pos hs, if_neg (by simp [hs])]
    rfl
  · rw [if_neg hs, if_pos hs]
    rfl

theorem readerNew_run_err (c : MediumConfig) (loc : ObjectLocation) (f : Flash)
    (e : RErr) (hrh : ObjectHeader.read c loc f = (.error e, f, [])) :
    ObjectReader.new c loc f = (.error e, f, []) := by
  unfold ObjectReader.new
  rw [M.bind_run, hrh]

/-- C6: on a mounted medium on which no path was ever stored (every
metadata block's object walk is empty), `Storage::read` and
`Storage::delete` return the not-found error for every path and do not
modify the medium: the flash state is unchanged and no write is issued. -/
theorem never_stored_read_delete_not_found (c : MediumConfig)
    (blocks : List BlockKind) (path : List Nat) (f : Flash)
    (h : ∀ i ∈ metadataIndices blocks, blockEmpty c f i) :
    Storage.read c blocks path f = (.error .err, f, []) ∧
    Storage.delete c blocks path f = (.error .err, f, []) := by
  have hl := lookup_empty c blocks path f h
  constructor
  · unfold Storage.read
    rw [M.bind_run, hl]
  · unfold Storage.delete
    rw [M.bind_run, hl]

/-- Witness for C6: a freshly formatted four-block medium and the path
bytes of a three-byte path. -/
theorem never_stored_read_delete_not_found_witness :
    Storage.read cfgB blocksB [102, 111, 111] flashFmt = (.error .err, flashFmt, []) ∧
    Storage.delete cfgB blocksB [102, 111, 111] flashFmt = (.error .err, flashFmt, []) :=
  never_stored_read_delete_not_found cfgB blocksB [102, 111, 111] flashFmt (by decide)

/-- C4: `ObjectReader::new` succeeds exactly when the object header at the
location decodes to the `Finalized` state; a decodable header in any of
the states `Free`, `Allocated`, `Deleted` yields an error, and a header
that does not decode propagates its error, so only fully committed objects
are ever exposed to readers. -/
theorem reader_new_requires_finalized (c : MediumConfig)
    (loc : ObjectLocation) (f : Flash) :
    (∀ h, (ObjectHeader.read c loc f).1 = .ok h →
      ((∃ r, (ObjectReader.new c loc f).1 = .ok r) ↔ h.state = ObjectState.Finalized)) ∧
    (∀ h, (ObjectHeader.read c loc f).1 = .ok h → h.state ≠ ObjectState.Finalized →
      (ObjectReader.new c loc f).1 = .error .err) ∧
    (∀ e, (ObjectHeader.read c loc f).1 = .error e →
      (ObjectReader.new c loc f).1 = .error e) := by
  obtain ⟨rh, hrh⟩ := readsOnly_headerRead c loc f
  refine ⟨?_, ?_, ?_⟩
  · intro h hok
    rw [hrh] at hok
    cases rh with
    | error e => exact absurd hok (by simp)
    | ok h' =>
      have hh : h' = h := by simpa using hok
      subst hh
      rw [readerNew_run_ok c loc f h' hrh]
      by_cases hs : h'.state = ObjectState.Finalized
      · rw [if_pos hs]
        exact ⟨fun _ => hs, fun _ => ⟨⟨loc, h', 0⟩, rfl⟩⟩
      · rw [if_neg hs]
        exact ⟨fun ⟨r, hr⟩ => absurd hr (by simp), fun hf => absurd hf hs⟩
  · intro h hok hne
    rw [hrh] at hok
    cases rh with
    | error e => exact absurd hok (by simp)
    | ok h' =>
      have hh : h' = h := by simpa using hok
      subst hh
      rw [readerNew_run_ok c loc f h' hrh, if_neg hne]
  · intro e he
    rw [hrh] at he
    cases rh with
    | error e' =>
      have hh : e' = e := by simpa using he
      subst hh
      rw [readerNew_run_err c loc f e' hrh]
    | ok h' => exact absurd he (by simp)

/-- Witness for C4: a concrete `Finalized` object is accepted, a concrete
`Allocated` object is rejected. -/
theorem reader_new_requires_finalized_witness :
    (∃ r, (ObjectReader.new cfgB ⟨0, 4⟩ flashReader).1 = .ok r) ∧
    (ObjectReader.new cfgB ⟨0, 4⟩ flashAlloc).1 = .error .err :=
  ⟨((reader_new_requires_finalized cfgB ⟨0, 4⟩ flashReader).1
      ⟨ObjectState.Finalized, 1⟩ (by decide)).2 rfl,
   (reader_new_requires_finalized cfgB ⟨0, 4⟩ flashAlloc).2.1
      ⟨ObjectState.Allocated, 255⟩ (by decide) (by decide)⟩

/-- C7: along every legal transition of the state lattice
(Free→Allocated, Allocated→Finalized, Allocated→Deleted,
Finalized→Deleted) the successor's encoding is a bitwise submask of the
predecessor's encoding, for the byte encoding (`into_bits`) and for the
word-pattern encoding (`into_words`) alike, so no transition ever needs to
flip a 0 bit back to 1. -/
theorem state_encoding_monotonic :
    (Nat.land ObjectState.Allocated.into_bits ObjectState.Free.into_bits =
      ObjectState.Allocated.into_bits ∧
     Nat.land ObjectState.Finalized.into_bits ObjectState.Allocated.into_bits =
      ObjectState.Finalized.into_bits ∧
     Nat.land ObjectState.Deleted.into_bits ObjectState.Allocated.into_bits =
      ObjectState.Deleted.into_bits ∧
     Nat.land ObjectState.Deleted.into_bits ObjectState.Finalized.into_bits =
      ObjectState.Deleted.into_bits) ∧
    (List.zipWith Nat.land ObjectState.Allocated.into_words ObjectState.Free.into_words =
      ObjectState.Allocated.into_words ∧
     List.zipWith Nat.land ObjectState.Finalized.into_words ObjectState.Allocated.into_words =
      ObjectState.Finalized.into_words ∧
     List.zipWith Nat.land ObjectState.Deleted.into_words ObjectState.Allocated.into_words =
      ObjectState.Deleted.into_words ∧
     List.zipWith Nat.land ObjectState.Deleted.into_words ObjectState.Finalized.into_words =
      ObjectState.Deleted.into_words) := by
  decide

/-- C8: object-state decoding is exact — `from_bits` returns a state for
exactly the four reserved byte values `0xFF`, `0xFE`, `0xFC`, `0x00` and an
error for every other byte, and `from_words` returns a state for exactly
the four defined word patterns and an error for every other pattern; no
unrecognized encoding decodes to a default state. -/
theorem state_decoding_exact :
    (∀ b, b < 256 →
      (ObjectState.from_bits b = .ok .Free ↔ b = 0xFF) ∧
      (ObjectState.from_bits b = .ok .Allocated ↔ b = 0xFE) ∧
      (ObjectState.from_bits b = .ok .Finalized ↔ b = 0xFC) ∧
      (ObjectState.from_bits b = .ok .Deleted ↔ b = 0x00) ∧
      (b ≠ 0xFF → b ≠ 0xFE → b ≠ 0xFC → b ≠ 0x00 →
        ObjectState.from_bits b = .error ())) ∧
    (∀ ws,
      (ObjectState.from_words ws = .ok .Free ↔ ws = ObjectState.FREE_WORDS) ∧
      (ObjectState.from_words ws = .ok .Allocated ↔ ws = ObjectState.ALLOCATED_WORDS) ∧
      (ObjectState.from_words ws = .ok .Finalized ↔ ws = ObjectState.FINALIZED_WORDS) ∧
      (ObjectState.from_words ws = .ok .Deleted ↔ ws = ObjectState.DELETED_WORDS) ∧
      (ws ≠ ObjectState.FREE_WORDS → ws ≠ ObjectState.ALLOCATED_WORDS →
       ws ≠ ObjectState.FINALIZED_WORDS → ws ≠ ObjectState.DELETED_WORDS →
        ObjectState.from_words ws = .error ())) := by
  constructor
  · intro b _
    unfold ObjectState.from_bits
    split_ifs with h1 h2 h3 h4 <;> simp_all
  · intro ws
    unfold ObjectState.from_words
    split_ifs with h1 h2 h3 h4 <;>
      simp_all [ObjectState.FREE_WORDS, ObjectState.ALLOCATED_WORDS,
        ObjectState.FINALIZED_WORDS, ObjectState.DELETED_WORDS]

/-- Witness for C8: an unreserved byte and an unrecognized word pattern
both decode to errors. -/
theorem state_decoding_exact_witness :
    ObjectState.from_bits 0xAB = .error () ∧
    ObjectState.from_words [1, 2, 3] = .error () :=
  ⟨(state_decoding_exact.1 0xAB (by decide)).2.2.2.2
      (by decide) (by decide) (by decide) (by decide),
   (state_decoding_exact.2 [1, 2, 3]).2.2.2.2
      (by decide) (by decide) (by decide) (by decide)⟩

theorem statePattern_ne_free (c : MediumConfig) (s : ObjectState)
    (hs : s ≠ ObjectState.Free) : statePattern c s ≠ statePattern c ObjectState.Free := by
  cases hg : c.granularity <;> cases s <;>
    simp_all [statePattern, ObjectState.into_bits, ObjectState.into_words,
      ObjectState.FREE_WORDS, ObjectState.ALLOCATED_WORDS,
      ObjectState.FINALIZED_WORDS, ObjectState.DELETED_WORDS]

/-- C10: `ObjectOps::update_state` refuses the `Free` target state with an
error and no medium write at all, and every write any `update_state` call
does issue carries the encoding of a non-`Free` state, which differs from
the `Free` encoding — so the object layer can never transition a stored
state back to `Free`; `Free` is reachable only through a block erase. -/
theorem update_state_never_frees (c : MediumConfig) (loc : ObjectLocation)
    (s : ObjectState) (f : Flash) :
    (s = ObjectState.Free →
      ObjectOps.update_state c loc s f = (.error .err, f, [])) ∧
    (∀ ev ∈ (ObjectOps.update_state c loc s f).2.2,
      s ≠ ObjectState.Free ∧ ev.bytes = statePattern c s ∧
        statePattern c s ≠ statePattern c ObjectState.Free) := by
  constructor
  · intro hs
    subst hs
    rfl
  · intro ev hev
    have hsf : s ≠ ObjectState.Free := by
      intro hs
      subst hs
      simp [ObjectOps.update_state, ObjectState.is_free, throwE] at hev
    refine ⟨hsf, ?_, statePattern_ne_free c s hsf⟩
    have heq : ObjectOps.update_state c loc s f =
        mediumWrite loc.block (c.align loc.offset) (statePattern c s) f := by
      cases s with
      | Free => exact absurd rfl hsf
      | Allocated => rfl
      | Finalized => rfl
      | Deleted => rfl
    rw [heq] at hev
    unfold mediumWrite at hev
    rcases hb : f.blocks[loc.block]? with _ | blk <;> rw [hb] at hev
    · simp at hev
    · dsimp only at hev
      split at hev
      · simp at hev
        rw [hev]
      · simp at hev

/-- Witness for C10: asking `update_state` for the `Free` state at a
concrete location fails without touching the medium. -/
theorem update_state_never_frees_witness :
    ObjectOps.update_state cfgB ⟨0, 4⟩ ObjectState.Free flashReader =
      (.error .err, flashReader, []) :=
  (update_state_never_frees cfgB ⟨0, 4⟩ ObjectState.Free flashReader).1 rfl

/-- C2 (failing input): `finalize` on an `Allocated` writer (object at
block 0, offset 4, cursor 3) performs exactly two commit writes in order —
first the payload size, then the `Finalized` state — but the size write
lands at block offset `align(object_status_bytes()) = 1` instead of the
object's own size field at offset `4 + object_status_bytes() = 5`:
re-reading the object's header after `finalize` still yields the erased
size 255, not the committed 3. -/
theorem finalize_commits_size_at_wrong_offset :
    writerAlloc.finalize cfgB flashAlloc =
      (.ok (), (writerAlloc.finalize cfgB flashAlloc).2.1,
        [⟨0, 1, [3]⟩, ⟨0, 4, [0xFC]⟩]) ∧
    cfgB.align cfgB.objectStatusBytes = 1 ∧
    writerAlloc.location.offset + cfgB.objectStatusBytes = 5 ∧
    (ObjectHeader.read cfgB ⟨0, 4⟩ (writerAlloc.finalize cfgB flashAlloc).2.1).1 =
      .ok ⟨ObjectState.Finalized, 255⟩ ∧
    writerAlloc.cursor = 3 ∧ (255 : Nat) ≠ 3 := by
  refine ⟨?_, rfl, rfl, by decide, rfl, by decide⟩
  rfl

/-- C5 (failing input): an `ObjectReader` over the `Finalized` object at
block 0, offset 4 with stored payload size 1 (payload byte 42), read with
a 10-byte buffer: the code returns 10 bytes starting at the object's
header (`0xFC`, the size byte, then the payload), not
`min(10, 1 - 0) = 1` payload byte; the cursor advances to 10, past the
stored size 1. -/
theorem reader_read_ignores_payload_bound :
    ((do
      let r ← ObjectReader.new cfgB ⟨0, 4⟩
      r.read cfgB 10) flashReader).1 =
      .ok ([0xFC, 1, 42, 255, 255, 255, 255, 255, 255, 255],
        ⟨⟨0, 4⟩, ⟨ObjectState.Finalized, 1⟩, 10⟩) ∧
    min 10 (1 - 0) = 1 ∧
    [0xFC, 1, 42, 255, 255, 255, 255, 255, 255, 255] ≠ [42] ∧ (10 : Nat) ≠ 1 := by
  exact ⟨rfl, by decide, by decide, by decide⟩

/-- C9 (counterexample): at offset 28 of a 32-byte block the medium holds a
readable non-`Free` object header (`Finalized`, size 0) and the two-byte
object header fits before the block end, yet `ObjectIterator::next` yields
none — its stop check uses the block-header constant
`blocks::HEADER_BYTES`, not the object-header size. -/
theorem iterator_stop_counterexample :
    ObjectIterator.next cfgB ⟨⟨0, 28⟩⟩ flashIter =
      (.ok (none, ⟨⟨0, 28⟩⟩), flashIter, []) ∧
    (ObjectHeader.read cfgB ⟨0, 28⟩ flashIter).1 =
      .ok ⟨ObjectState.Finalized, 0⟩ ∧
    28 + cfgB.objectHeaderBytes ≤ cfgB.blockSize ∧
    (ObjectState.Finalized ≠ ObjectState.Free) := by
  exact ⟨rfl, by decide, by decide, by decide⟩

/-- C1 (failing input): on a freshly formatted and mounted 4-block by
32-byte `Bit` medium, `store("ab", [1,2,3])` succeeds, but the immediately
following `read("ab")` returns an error instead of a `Reader` over the
stored bytes — the size commits of `finalize` went to the wrong offsets,
so `lookup` cannot re-parse the chain it just wrote. -/
theorem store_read_roundtrip_fails :
    (Storage.store cfgB blocksB pathAB [1, 2, 3] flashFmt).1 = .ok () ∧
    (Storage.read cfgB blocksB pathAB
      (Storage.store cfgB blocksB pathAB [1, 2, 3] flashFmt).2.1).1 =
      .error .err := by
  exact ⟨rfl, rfl⟩

/-- C9 (amended): `ObjectIterator` begins at the first offset after the
block header; `next()` yields none when fewer than `blocks::HEADER_BYTES`
bytes remain before the block end (the code uses the block-header constant
as its fit bound, not the object-header size) or when the header at the
current offset reads `Free`; otherwise it yields the object at the current
offset and advances by exactly the object's payload size plus the object
header size; a header that fails to decode propagates its error. -/
theorem iterator_walk_behavior (c : MediumConfig) (b : Nat)
    (it : ObjectIterator) (f : Flash) :
    (ObjectIterator.new b).location = ⟨b, blocksHeaderBytes⟩ ∧
    (it.location.offset + blocksHeaderBytes ≥ c.blockSize →
      it.next c f = (.ok (none, it), f, [])) ∧
    (it.location.offset + blocksHeaderBytes < c.blockSize →
      (∀ h, (ObjectHeader.read c it.location f).1 = .ok h →
        (h.state = ObjectState.Free → it.next c f = (.ok (none, it), f, [])) ∧
        (h.state ≠ ObjectState.Free →
          it.next c f = (.ok (some ⟨it.location, h⟩,
            ⟨⟨it.location.block,
              it.location.offset + (h.object_size + c.objectHeaderBytes)⟩⟩), f, []))) ∧
      (∀ e, (ObjectHeader.read c it.location f).1 = .error e →
        it.next c f = (.error e, f, []))) := by
  obtain ⟨rh, hrh⟩ := readsOnly_headerRead c it.location f
  refine ⟨rfl, ?_, ?_⟩
  · intro hge
    unfold ObjectIterator.next
    rw [if_pos hge]
    rfl
  · intro hlt
    have hnotge : ¬ it.location.offset + blocksHeaderBytes ≥ c.blockSize := by omega
    constructor
    · intro h hok
      rw [hrh] at hok
      cases rh with
      | error e => exact absurd hok (by simp)
      | ok h' =>
        have hh : h' = h := by simpa using hok
        subst hh
        constructor
        · intro hfree
          unfold ObjectIterator.next
          rw [if_neg hnotge, M.bind_run, hrh]
          dsimp only
          rw [if_pos (by simp [ObjectState.is_free, hfree])]
          rfl
        · intro hnfree
          unfold ObjectIterator.next
          rw [if_neg hnotge, M.bind_run, hrh]
          dsimp only
          rw [if_neg (by cases hg : h'.state <;> simp_all [ObjectState.is_free])]
          rfl
    · intro e he
      rw [hrh] at he
      cases rh with
      | ok h' => exact absurd he (by simp)
      | error e' =>
        have hh : e' = e := by simpa using he
        subst hh
        unfold ObjectIterator.next
        rw [if_neg hnotge, M.bind_run, hrh]

/-- Witness for C9 (amended): the walk of a block holding one `Finalized`
object of size 1 at offset 4 yields that object and advances to offset 7. -/
theorem iterator_walk_behavior_witness :
    ObjectIterator.next cfgB (ObjectIterator.new 0) flashReader =
      (.ok (some ⟨⟨0, 4⟩, ⟨ObjectState.Finalized, 1⟩⟩, ⟨⟨0, 7⟩⟩), flashReader, []) :=
  (((iterator_walk_behavior cfgB 0 (ObjectIterator.new 0) flashReader).2.2
      (by decide)).1 ⟨ObjectState.Finalized, 1⟩ (by decide)).2 (by decide)

theorem bind_ok {α β : Type} {x : M α} {g : α → M β} {f fe : Flash} {b : β}
    {t : List Ev} (h : (x >>= g) f = (.ok b, fe, t)) :
    ∃ a f1 t1 t2, x f = (.ok a, f1, t1) ∧ g a f1 = (.ok b, fe, t2) ∧ t = t1 ++ t2 := by
  rw [M.bind_run] at h
  rcases h1 : x f with ⟨r1, f1, t1⟩
  rw [h1] at h
  cases r1 with
  | error e => simp [Prod.mk.injEq] at h
  | ok a =>
    dsimp only at h
    rcases h2 : g a f1 with ⟨r2, f2, t2⟩
    rw [h2] at h
    simp only [Prod.mk.injEq] at h
    obtain ⟨hr, hf, ht⟩ := h
    subst hr hf
    exact ⟨a, f1, t1, t2, rfl, h2, ht.symm⟩

theorem pure_ok {α : Type} {a b : α} {f fe : Flash} {t : List Ev}
    (h : (pure a : M α) f = (.ok b, fe, t)) : b = a ∧ fe = f ∧ t = [] := by
  have : (pure a : M α) f = (.ok a, f, []) := rfl
  rw [this] at h
  simp only [Prod.mk.injEq] at h
  obtain ⟨hr, hf, ht⟩ := h
  exact ⟨by simpa using hr.symm, hf.symm, ht.symm⟩

theorem mediumWrite_ok_trace {b o : Nat} {bytes : List Nat} {f f' : Flash}
    {t : List Ev} (h : mediumWrite b o bytes f = (.ok (), f', t)) :
    t = [⟨b, o, bytes⟩] := by
  unfold mediumWrite at h
  rcases hb : f.blocks[b]? with _ | blk <;> rw [hb] at h
  · simp [Prod.mk.injEq] at h
  · dsimp only at h
    split at h
    · simp only [Prod.mk.injEq] at h
      exact h.2.2.symm
    · simp [Prod.mk.injEq] at h

theorem update_state_ok_trace {c : MediumConfig} {loc : ObjectLocation}
    {s : ObjectState} {f f' : Flash} {t : List Ev}
    (hs : s ≠ ObjectState.Free)
    (h : ObjectOps.update_state c loc s f = (.ok (), f', t)) :
    t = [⟨loc.block, c.align loc.offset, statePattern c s⟩] := by
  have heq : ObjectOps.update_state c loc s f =
      mediumWrite loc.block (c.align loc.offset) (statePattern c s) f := by
    cases s with
    | Free => exact absurd rfl hs
    | Allocated => rfl
    | Finalized => rfl
    | Deleted => rfl
  rw [heq] at h
  exact mediumWrite_ok_trace h

theorem set_state_ok {c : MediumConfig} {w w' : ObjectWriter} {s : ObjectState}
    {f f' : Flash} {t : List Ev} (hs : s ≠ ObjectState.Free)
    (h : w.set_state c s f = (.ok w', f', t)) :
    t = [⟨w.location.block, c.align w.location.offset, statePattern c s⟩] ∧
      w'.location = w.location := by
  unfold ObjectWriter.set_state at h
  obtain ⟨u, f1, t1, t2, h1, h2, ht⟩ := bind_ok h
  obtain ⟨hw, hf, ht2⟩ := pure_ok h2
  subst hw
  refine ⟨?_, rfl⟩
  rw [ht, ht2, update_state_ok_trace hs h1]
  simp

theorem flush_ok {c : MediumConfig} {w w' : ObjectWriter} {f f' : Flash}
    {t : List Ev} (h : w.flush c f = (.ok w', f', t)) :
    w'.location = w.location ∧ w'.object = w.object ∧ w'.cursor = w.cursor := by
  unfold ObjectWriter.flush at h
  split at h
  · obtain ⟨hw, _, _⟩ := pure_ok h
    subst hw
    exact ⟨rfl, rfl, rfl⟩
  · split at h
    · obtain ⟨hw, _, _⟩ := pure_ok h
      subst hw
      exact ⟨rfl, rfl, rfl⟩
    · obtain ⟨u, f1, t1, t2, h1, h2, ht⟩ := bind_ok h
      obtain ⟨hw, _, _⟩ := pure_ok h2
      subst hw
      exact ⟨rfl, rfl, rfl⟩

theorem fill_buffer_pres (c : MediumConfig) (w : ObjectWriter) (data : List Nat) :
    (w.fill_buffer c data).2.location = w.location ∧
      (w.fill_buffer c data).2.object = w.object ∧
      (w.fill_buffer c data).2.cursor = w.cursor := by
  unfold ObjectWriter.fill_buffer
  cases c.granularity <;> exact ⟨rfl, rfl, rfl⟩

theorem writer_new_ok {c : MediumConfig} {loc : ObjectLocation} {w : ObjectWriter}
    {f f' : Flash} {t : List Ev} (h : ObjectWriter.new c loc f = (.ok w, f', t)) :
    w.location = loc := by
  unfold ObjectWriter.new at h
  obtain ⟨hd, f1, t1, t2, h1, h2, ht⟩ := bind_ok h
  split at h2
  · exact absurd h2 (by simp [throwE, Prod.mk.injEq])
  · obtain ⟨hw, _, _⟩ := pure_ok h2
    subst hw
    rfl

theorem writeStep1_ok {c : MediumConfig} {w w1 : ObjectWriter} {data data1 : List Nat}
    {f f' : Flash} {t : List Ev}
    (h : w.writeStep1 c data f = (.ok (data1, w1), f', t)) :
    w1.location = w.location ∧ w1.object = w.object ∧ w1.cursor = w.cursor := by
  unfold ObjectWriter.writeStep1 at h
  split at h
  · obtain ⟨hw, _, _⟩ := pure_ok h
    rw [show w1 = w from congrArg Prod.snd hw]
    exact ⟨rfl, rfl, rfl⟩
  · dsimp only at h
    split at h
    · obtain ⟨w'', f1, t1, t2, h1, h2, _⟩ := bind_ok h
      obtain ⟨hl, ho, hc⟩ := flush_ok h1
      obtain ⟨hw, _, _⟩ := pure_ok h2
      have hfb := fill_buffer_pres c w data
      rw [show w1 = w'' from congrArg Prod.snd hw]
      exact ⟨hl.trans hfb.1, ho.trans hfb.2.1, hc.trans hfb.2.2⟩
    · obtain ⟨hw, _, _⟩ := pure_ok h
      have hfb := fill_buffer_pres c w data
      rw [show w1 = (w.fill_buffer c data).2 from congrArg Prod.snd hw]
      exact ⟨hfb.1, hfb.2.1, hfb.2.2⟩

theorem writeTail_ok {c : MediumConfig} {len : Nat} {w1 w2 : ObjectWriter}
    {data1 : List Nat} {f f' : Flash} {t : List Ev}
    (h : ObjectWriter.writeTail c len w1 data1 f = (.ok w2, f', t)) :
    w2.location = w1.location ∧ w2.object = w1.object := by
  unfold ObjectWriter.writeTail at h
  dsimp only at h
  split at h
  · obtain ⟨u, f1, t1, t2, h1, h2, _⟩ := bind_ok h
    obtain ⟨hw, _, _⟩ := pure_ok h2
    have hfb := fill_buffer_pres c w1 (data1.drop (len - data1.length % c.granularity.width))
    rw [hw]
    exact ⟨hfb.1, hfb.2.1⟩
  · exact absurd h (by simp [panicM, Prod.mk.injEq])

theorem writer_write_ok {c : MediumConfig} {w w' : ObjectWriter} {data : List Nat}
    {f f' : Flash} {t : List Ev} (h : w.write c data f = (.ok w', f', t)) :
    w'.location = w.location ∧ w'.object = w.object := by
  unfold ObjectWriter.write at h
  split at h
  · exact absurd h (by simp [throwE, Prod.mk.injEq])
  · dsimp only at h
    split at h
    · exact absurd h (by simp [throwE, Prod.mk.injEq])
    · obtain ⟨p, f1, t1, t2, h1, h2, _⟩ := bind_ok h
      rcases p with ⟨data1, w1⟩
      obtain ⟨hl, ho, _⟩ := writeStep1_ok h1
      obtain ⟨hl2, ho2⟩ := writeTail_ok h2
      exact ⟨hl2.trans hl, ho2.trans ho⟩

theorem finalize_ok_mem {c : MediumConfig} {w : ObjectWriter} {f f' : Flash}
    {t : List Ev} (h : w.finalize c f = (.ok (), f', t)) :
    Ev.mk w.location.block (c.align w.location.offset)
      (statePattern c ObjectState.Finalized) ∈ t := by
  unfold ObjectWriter.finalize at h
  split at h
  · exact absurd h (by simp [throwE, Prod.mk.injEq])
  · obtain ⟨u1, f1, t1, t2, h1, h2, ht⟩ := bind_ok h
    obtain ⟨w2, f2, t3, t4, h3, h4, ht2⟩ := bind_ok h2
    obtain ⟨w3, f3, t5, t6, h5, h6, ht3⟩ := bind_ok h4
    obtain ⟨hl, ho, hc⟩ := flush_ok h3
    obtain ⟨ht5, hloc3⟩ := set_state_ok (by decide) h5
    have hev : Ev.mk w.location.block (c.align w.location.offset)
        (statePattern c ObjectState.Finalized) ∈ t5 := by
      rw [ht5, hl]
      exact List.mem_singleton.mpr rfl
    subst ht ht2 ht3
    exact List.mem_append_right _ (List.mem_append_right _ (List.mem_append_left _ hev))

theorem writeOne_ok_mem {c : MediumConfig} {loc : ObjectLocation}
    {payload : List Nat} {f f' : Flash} {t : List Ev}
    (h : writeOne c loc payload f = (.ok (), f', t)) :
    Ev.mk loc.block (c.align loc.offset) (statePattern c ObjectState.Finalized) ∈ t := by
  unfold writeOne at h
  obtain ⟨w0, f1, t1, t2, h1, h2, ht⟩ := bind_ok h
  obtain ⟨w1, f2, t3, t4, h3, h4, ht2⟩ := bind_ok h2
  obtain ⟨w2, f3, t5, t6, h5, h6, ht3⟩ := bind_ok h4
  have hw0 : w0.location = loc := writer_new_ok h1
  unfold ObjectWriter.allocate at h3
  have hw1 : w1.location = w0.location := (set_state_ok (by decide) h3).2
  have hw2 : w2.location = w1.location := (writer_write_ok h5).1
  have hfin := finalize_ok_mem h6
  rw [hw2, hw1, hw0] at hfin
  subst ht ht2 ht3
  exact List.mem_append_right _ (List.mem_append_right _ (List.mem_append_right _ hfin))

theorem write_object_ok_mem {c : MediumConfig} {blocks : List BlockKind}
    {metaLoc : ObjectLocation} {path data : List Nat} {f f' : Flash} {t : List Ev}
    (h : Storage.write_object c blocks metaLoc path data f = (.ok (), f', t)) :
    Ev.mk metaLoc.block (c.align metaLoc.offset)
      (statePattern c ObjectState.Finalized) ∈ t := by
  unfold Storage.write_object at h
  obtain ⟨fLoc, f1, t1, t2, h1, h2, ht⟩ := bind_ok h
  obtain ⟨u1, f2, t3, t4, h3, h4, ht2⟩ := bind_ok h2
  obtain ⟨dLoc, f3, t5, t6, h5, h6, ht3⟩ := bind_ok h4
  obtain ⟨u2, f4, t7, t8, h7, h8, ht4⟩ := bind_ok h6
  have hmem := writeOne_ok_mem h8
  subst ht ht2 ht3 ht4
  exact List.mem_append_right _ (List.mem_append_right _
    (List.mem_append_right _ (List.mem_append_right _ hmem)))


theorem readsOnly_attemptM {α : Type} {x : M α} (hx : ReadsOnly x) :
    ReadsOnly (attemptM x) := by
  intro f
  obtain ⟨r, hr⟩ := hx f
  cases r with
  | ok a => exact ⟨.ok (some a), by unfold attemptM; rw [hr]⟩
  | error e =>
    cases e with
    | err => exact ⟨.ok none, by unfold attemptM; rw [hr]⟩
    | panicked => exact ⟨.error .panicked, by unfold attemptM; rw [hr]⟩

theorem readsOnly_readMetadataAt (c : MediumConfig) (loc : ObjectLocation) :
    ReadsOnly (readMetadataAt c loc) := by
  unfold readMetadataAt
  exact readsOnly_bind (readsOnly_headerRead _ _) fun h => readsOnly_readMetadata _ _

theorem bind_ok_readsOnly {α β : Type} {x : M α} {g : α → M β} {f fEnd : Flash}
    {b : β} {t : List Ev} (hro : ReadsOnly x)
    (h : (x >>= g) f = (.ok b, fEnd, t)) :
    ∃ a, x f = (.ok a, f, []) ∧ g a f = (.ok b, fEnd, t) := by
  obtain ⟨r, hr⟩ := hro f
  rw [M.bind_run, hr] at h
  cases r with
  | error e => exact absurd h (by simp [Prod.mk.injEq])
  | ok a =>
    dsimp only at h
    rcases hg : g a f with ⟨r2, f2, t2⟩
    rw [hg] at h
    simp only [Prod.mk.injEq, List.nil_append] at h
    obtain ⟨h1, h2, h3⟩ := h
    exact ⟨a, hr, by rw [hg, h1, h2, h3]⟩

theorem deleteDataObjects_trace (c : MediumConfig) :
    ∀ locs (f fEnd : Flash) (t : List Ev),
      deleteDataObjects c locs f = (.ok (), fEnd, t) →
      ∀ ev ∈ t, ev.bytes = statePattern c ObjectState.Deleted := by
  intro locs
  induction locs with
  | nil =>
    intro f fEnd t h ev hev
    have ht : t = [] := by
      have := congrArg (fun p => p.2.2) h
      simpa using this.symm
    rw [ht] at hev
    simp at hev
  | cons l rest ih =>
    intro f fEnd t h ev hev
    unfold deleteDataObjects at h
    obtain ⟨u, f1, t1, t2, h1, h2, ht⟩ := bind_ok h
    rw [ht] at hev
    rcases List.mem_append.mp hev with h' | h'
    · rw [update_state_ok_trace (by decide) h1] at h'
      simp at h'
      rw [h']
    · exact ih f1 fEnd t2 h2 ev h'

theorem delete_file_at_trace {c : MediumConfig} {loc : ObjectLocation}
    {f fEnd : Flash} {t : List Ev}
    (h : Storage.delete_file_at c loc f = (.ok (), fEnd, t)) :
    ∀ ev ∈ t, ev.bytes = statePattern c ObjectState.Deleted := by
  unfold Storage.delete_file_at at h
  obtain ⟨md, h1, h2⟩ := bind_ok_readsOnly (readsOnly_readMetadataAt c loc) h
  obtain ⟨u1, f2, t2, t3, h3, h4, ht⟩ := bind_ok h2
  obtain ⟨u2, f3, t4, t5, h5, h6, ht2⟩ := bind_ok h4
  intro ev hev
  rw [ht, ht2] at hev
  rcases List.mem_append.mp hev with h' | h'
  · rw [update_state_ok_trace (by decide) h3] at h'
    simp at h'
    rw [h']
  · rcases List.mem_append.mp h' with h'' | h''
    · exact deleteDataObjects_trace c md.data_locations f2 f3 t4 h5 ev h''
    · rw [update_state_ok_trace (by decide) h6] at h''
      simp at h''
      rw [h'']

theorem M.bind_run_ok2 {α β : Type} {x : M α} {g : α → M β} {f f1 f2 : Flash}
    {a : α} {r : Except RErr β} {t1 t2 : List Ev}
    (hx : x f = (.ok a, f1, t1)) (hg : g a f1 = (r, f2, t2)) :
    (x >>= g) f = (r, f2, t1 ++ t2) := by
  rw [M.bind_run, hx]
  dsimp only
  rw [hg]

theorem store_run (c : MediumConfig) (blocks : List BlockKind)
    (path data : List Nat) (f fMid fEnd : Flash)
    (oldLoc metaLoc : ObjectLocation) (tW tD : List Ev)
    (hl : Storage.lookup c blocks path f = (.ok oldLoc, f, []))
    (ha : Storage.allocate_object c blocks f = (.ok metaLoc, f, []))
    (hw : Storage.write_object c blocks metaLoc path data f = (.ok (), fMid, tW))
    (hd : Storage.delete_file_at c oldLoc fMid = (.ok (), fEnd, tD)) :
    Storage.store c blocks path data f = (.ok (), fEnd, tW ++ tD) := by
  have hattempt : attemptM (Storage.lookup c blocks path) f = (.ok (some oldLoc), f, []) := by
    unfold attemptM
    rw [hl]
  have h : Storage.store c blocks path data f =
      (.ok (), fEnd, [] ++ ([] ++ (tW ++ tD))) :=
    M.bind_run_ok2 hattempt (M.bind_run_ok2 ha (M.bind_run_ok2 hw hd))
  simp only [List.nil_append] at h
  exact h

/-- C3: in every successful `Storage::store` on a medium where a previous
chain exists at the path (the lookup finds `oldLoc`), the write trace
splits into the writes of the brand-new chain followed by the writes of
`delete_file_at` on the old chain: the lookup and the allocation write
nothing, the new chain — including the `Finalized` state commit of its new
metadata object — is fully written first, and every write of the trailing
delete phase carries the `Deleted` state pattern; so no delete of the old
chain ever precedes completion of the new one. -/
theorem store_new_chain_before_deleting_old (c : MediumConfig)
    (blocks : List BlockKind) (path data : List Nat) (f fEnd : Flash)
    (t : List Ev) (oldLoc : ObjectLocation)
    (hstore : Storage.store c blocks path data f = (.ok (), fEnd, t))
    (hold : (Storage.lookup c blocks path f).1 = .ok oldLoc) :
    ∃ metaLoc fMid tNew tDel,
      t = tNew ++ tDel ∧
      Storage.allocate_object c blocks f = (.ok metaLoc, f, []) ∧
      Storage.write_object c blocks metaLoc path data f = (.ok (), fMid, tNew) ∧
      Storage.delete_file_at c oldLoc fMid = (.ok (), fEnd, tDel) ∧
      Ev.mk metaLoc.block (c.align metaLoc.offset)
        (statePattern c ObjectState.Finalized) ∈ tNew ∧
      (∀ ev ∈ tDel, ev.bytes = statePattern c ObjectState.Deleted) := by
  obtain ⟨rl, hrl⟩ := readsOnly_lookup c blocks path f
  rw [hrl] at hold
  have hrl' : Storage.lookup c blocks path f = (.ok oldLoc, f, []) := by
    rw [hrl]
    cases rl with
    | error e => exact absurd hold (by simp)
    | ok a =>
      have ha : a = oldLoc := by simpa using hold
      rw [ha]
  unfold Storage.store at hstore
  obtain ⟨old, h1, h2⟩ := bind_ok_readsOnly
    (readsOnly_attemptM (readsOnly_lookup c blocks path)) hstore
  have hold2 : old = some oldLoc := by
    unfold attemptM at h1
    rw [hrl'] at h1
    have := congrArg (fun p => p.1) h1
    simpa using this.symm
  rw [hold2] at h2
  obtain ⟨metaLoc, h3, h4⟩ := bind_ok_readsOnly
    (readsOnly_allocateObject c blocks) h2
  obtain ⟨u, fMid, tW, tD, h5, h6, ht⟩ := bind_ok h4
  exact ⟨metaLoc, fMid, tW, tD, ht, h3, h5, h6,
    write_object_ok_mem h5, delete_file_at_trace h6⟩

set_option maxHeartbeats 8000000 in
/-- Witness for C3: on the concrete medium `flashOld`, which holds a
previous chain for the empty path at block 0 offset 4, `store` succeeds
and its trace decomposes into the twelve new-chain writes followed by the
three delete writes. -/
theorem store_order_witness :
    Storage.store cfgB blocksB [] [9] flashOld =
      (.ok (), flashOldAfter, tNewLit ++ tDelLit) ∧
    (Storage.lookup cfgB blocksB [] flashOld).1 = .ok ⟨0, 4⟩ ∧
    ∃ metaLoc fMid tNew tDel,
      tNewLit ++ tDelLit = tNew ++ tDel ∧
      Storage.allocate_object cfgB blocksB flashOld = (.ok metaLoc, flashOld, []) ∧
      Storage.write_object cfgB blocksB metaLoc [] [9] flashOld =
        (.ok (), fMid, tNew) ∧
      Storage.delete_file_at cfgB ⟨0, 4⟩ fMid = (.ok (), flashOldAfter, tDel) ∧
      Ev.mk metaLoc.block (cfgB.align metaLoc.offset)
        (statePattern cfgB ObjectState.Finalized) ∈ tNew ∧
      (∀ ev ∈ tDel, ev.bytes = statePattern cfgB ObjectState.Deleted) := by
  have hl : Storage.lookup cfgB blocksB [] flashOld = (.ok ⟨0, 4⟩, flashOld, []) := rfl
  have ha : Storage.allocate_object cfgB blocksB flashOld =
      (.ok ⟨0, 14⟩, flashOld, []) := rfl
  have hw : Storage.write_object cfgB blocksB ⟨0, 14⟩ [] [9] flashOld =
      (.ok (), fMidLit, tNewLit) := rfl
  have hd : Storage.delete_file_at cfgB ⟨0, 4⟩ fMidLit =
      (.ok (), flashOldAfter, tDelLit) := rfl
  have hstore := store_run cfgB blocksB [] [9] flashOld fMidLit flashOldAfter
    ⟨0, 4⟩ ⟨0, 14⟩ tNewLit tDelLit hl ha hw hd
  exact ⟨hstore, by rw [hl],
    store_new_chain_before_deleting_old cfgB blocksB [] [9] flashOld
      flashOldAfter (tNewLit ++ tDelLit) ⟨0, 4⟩ hstore (by rw [hl])⟩
